import Mathlib

/-!
Shallow embedding of `expyriment`'s random dot kinematogram
(`expyriment/stimuli/extras/_randomdotkinematogram.py`) and of the utility
functions in `expyriment/misc/_miscellaneous.py`, together with theorems
settling the specification claims about them.

Modelling conventions:
* Python floats are modelled by `ℚ` (exact arithmetic).
* `math.cos`, `math.sin` and `math.pi` are opaque to every claim, so they are
  supplied as parameters (`Trig`), never interpreted.
* Comparisons against `math.hypot(x, y)` (always ≥ 0) are modelled by the
  equivalent squared comparisons (`hypotGe`, `hypotLt`).
* `random.random()` is modelled by an explicit stream of rationals (`RNG`);
  its documented contract (results in `[0, 1)`) is `RNG.valid`.
* Each `MovingPosition` owns a `Clock` started at creation; the field
  `clockTime` holds the reading of that clock at the instant of observation
  (0 for a freshly created dot).
* Unbounded `while` loops (the rejection sampler of `_make_random_dot` and
  the loop of the `target_dot_ratio` setter) are given explicit fuel and
  return `Option`; `none` models non-termination within the fuel bound.
-/

namespace Expy

/-- Python `int(...)` on a rational: truncation toward zero (computable via
`Rat.floor`). -/
def pyInt (q : ℚ) : ℤ := if 0 ≤ q then q.floor else -((-q).floor)

/-- Model of `math.hypot(x, y) >= r`: since `hypot(x, y) = sqrt(x² + y²) ≥ 0`,
this holds iff `r ≤ 0` or `r² ≤ x² + y²`. -/
def hypotGe (x y r : ℚ) : Bool := decide (r ≤ 0) || decide (r * r ≤ x * x + y * y)

/-- Model of `math.hypot(x, y) < r`. -/
def hypotLt (x y r : ℚ) : Bool := ! hypotGe x y r

/-- The transcendental ingredients of `_update_movement_vector`
(`math.cos`, `math.sin` on radians and the constant `math.pi`), opaque to all
claims, supplied as parameters. -/
structure Trig where
  pi : ℚ
  cos : ℚ → ℚ
  sin : ℚ → ℚ

/-- The stream of values produced by successive `random.random()` calls,
together with the index of the next unused value. -/
structure RNG where
  stream : ℕ → ℚ
  idx : ℕ

/-- Draw one value from the random stream (`random.random()`). -/
def RNG.next (g : RNG) : ℚ × RNG := (g.stream g.idx, ⟨g.stream, g.idx + 1⟩)

/-- The documented contract of `random.random()`: every produced value lies
in `[0, 1)`. -/
def RNG.valid (g : RNG) : Prop := ∀ n, 0 ≤ g.stream n ∧ g.stream n < 1

/-- Source `MovingPosition.__init__` body, minus the `Clock`: `clockTime` is the
reading of the dot's own clock (`self._clock.time`) at the instant of
observation.  The field `nuc` models `self._north_up_clockwise`, which the
constructor stores as the ONE-ELEMENT TUPLE `north_up_clockwise,`
(trailing comma in the source); a tuple is represented by a list. -/
structure MovingPosition where
  start : ℚ × ℚ
  lifetime : ℚ
  extra_age : ℚ
  is_target : Bool
  speed : ℚ
  nuc : List Bool
  direction : ℚ
  movement_vector : ℚ × ℚ
  clockTime : ℚ
deriving DecidableEq

/-- Source `MovingPosition._update_movement_vector`.  The Python condition
`if self._north_up_clockwise:` tests the truthiness of the stored tuple,
i.e. its non-emptiness — not the boolean inside it. -/
def updateMovementVector (T : Trig) (nuc : List Bool) (dir speed : ℚ) : ℚ × ℚ :=
  let d := if nuc.isEmpty then dir else 450 - dir
  let angle := d * T.pi / 180
  let sp := speed / 1000
  (sp * T.cos angle, sp * T.sin angle)

/-- Source `MovingPosition.__init__(position, direction, speed, lifetime, extra_age,
north_up_clockwise, is_target)`; the movement vector is computed once, and the
dot's clock starts at 0. -/
def MovingPosition.create (T : Trig) (position : ℚ × ℚ) (direction speed lifetime
    extra_age : ℚ) (north_up_clockwise : Bool) (is_target : Bool) : MovingPosition :=
  { start := position
    lifetime := lifetime
    extra_age := extra_age
    is_target := is_target
    speed := speed
    nuc := [north_up_clockwise]
    direction := direction
    movement_vector := updateMovementVector T [north_up_clockwise] direction speed
    clockTime := 0 }

/-- Source `MovingPosition.is_dead`: `self._clock.time + self.extra_age >= self.lifetime`. -/
def MovingPosition.is_dead (m : MovingPosition) : Bool :=
  decide (m.lifetime ≤ m.clockTime + m.extra_age)

/-- Source `MovingPosition.position`: start position plus clock time times the stored
movement vector. -/
def MovingPosition.position (m : MovingPosition) : ℚ × ℚ :=
  (m.start.1 + m.clockTime * m.movement_vector.1,
   m.start.2 + m.clockTime * m.movement_vector.2)

/-- Source `MovingPosition.is_outside(the_range)`:
`math.hypot(pos[0], pos[1]) >= the_range` on the current position. -/
def MovingPosition.is_outside (m : MovingPosition) (the_range : ℚ) : Bool :=
  hypotGe m.position.1 m.position.2 the_range

/-- Source `MovingPosition.north_up_clockwise` property: returns the stored value,
which is the one-element tuple, not the boolean. -/
def MovingPosition.north_up_clockwise (m : MovingPosition) : List Bool := m.nuc

/-- The state of a `RandomDotKinematogram` (the canvas and the plotting
parameters `dot_diameter`, colours are GUI-only and carry no dot state). -/
structure RDKState where
  area_radius : ℚ
  dot_speed : ℚ
  dot_lifetime : ℚ
  north_up_clockwise : Bool
  target_direction : ℚ
  dots : List MovingPosition

/-- The rejection-sampling `while` loop at the head of
`RandomDotKinematogram._make_random_dot`: draw
`pos = (int(R - random()*2*R), int(R - random()*2*R))` until
`math.hypot(pos[0], pos[1]) < R`, with explicit fuel. -/
def sampleInsidePos (R : ℚ) : ℕ → RNG → Option ((ℚ × ℚ) × RNG)
  | 0, _ => none
  | fuel + 1, g =>
    let (r1, g1) := g.next
    let (r2, g2) := g1.next
    let pos : ℚ × ℚ := (((pyInt (R - r1 * 2 * R) : ℤ) : ℚ), ((pyInt (R - r2 * 2 * R) : ℤ) : ℚ))
    if hypotLt pos.1 pos.2 R then some (pos, g2) else sampleInsidePos R fuel g2

/-- Source `RandomDotKinematogram._make_random_dot(direction, extra_age)`: sample a
start position inside the arena, then take the given direction or draw
`random.random() * 360`, and build the `MovingPosition` (with the state's
speed, lifetime and north-up flag; `is_target` defaults to `False`). -/
def mkRandomDot (T : Trig) (s : RDKState) (direction : Option ℚ) (extra_age : ℚ)
    (fuel : ℕ) (g : RNG) : Option (MovingPosition × RNG) :=
  match sampleInsidePos s.area_radius fuel g with
  | none => none
  | some (pos, g1) =>
    let (dir, g2) : ℚ × RNG :=
      match direction with
      | some d => (d, g1)
      | none =>
        let (r, g2) := g1.next
        (r * 360, g2)
    some (MovingPosition.create T pos dir s.dot_speed s.dot_lifetime extra_age
            s.north_up_clockwise false, g2)

/-- Source `for d in dots: if p(d): dots.remove(d); break` — remove the first element
satisfying `p`, keep the list unchanged when none does.  (`list.remove` uses
`==`, which on `MovingPosition` objects is identity, so exactly the element
found by the loop is removed.) -/
def removeFirst (p : MovingPosition → Bool) : List MovingPosition → List MovingPosition
  | [] => []
  | d :: rest => if p d then rest else d :: removeFirst p rest

/-- Source `sum(map(lambda x: int(x.is_target), dots))` on a dot list. -/
def targetSum (l : List MovingPosition) : ℕ :=
  (l.map (fun d => if d.is_target then 1 else 0)).sum

/-- Source `RandomDotKinematogram.n_target_dots`. -/
def n_target_dots (s : RDKState) : ℕ := targetSum s.dots

/-- Source `RandomDotKinematogram.target_dot_ratio` getter:
`n_target_dots / float(len(dots))`. -/
def target_dot_ratio (s : RDKState) : ℚ :=
  (n_target_dots s : ℚ) / (s.dots.length : ℚ)

/-- The `while goal_n_targets != curr_n_targets:` loop of the
`target_dot_ratio` setter, with explicit fuel.  Each iteration removes the
first dot of the opposite kind and appends a freshly sampled dot of the needed
kind (whose `extra_age` is `int(random.random() * dot_lifetime)`). -/
def setterLoop (T : Trig) (goal : ℤ) (sf : ℕ) :
    ℕ → RDKState → RNG → Option (RDKState × RNG)
  | fuel, s, g =>
    if (targetSum s.dots : ℤ) = goal then some (s, g)
    else
      match fuel with
      | 0 => none
      | fuel + 1 =>
        if (targetSum s.dots : ℤ) < goal then
          -- remove non target and add target
          let dots1 := removeFirst (fun d => ! d.is_target) s.dots
          let (r, g1) := g.next
          match mkRandomDot T s (some s.target_direction)
              ((pyInt (r * s.dot_lifetime) : ℤ) : ℚ) sf g1 with
          | none => none
          | some (d, g2) =>
            setterLoop T goal sf fuel { s with dots := dots1 ++ [{ d with is_target := true }] } g2
        else
          -- remove a target and add non target
          let dots1 := removeFirst (fun d => d.is_target) s.dots
          let (r, g1) := g.next
          match mkRandomDot T s none ((pyInt (r * s.dot_lifetime) : ℤ) : ℚ) sf g1 with
          | none => none
          | some (d, g2) =>
            setterLoop T goal sf fuel { s with dots := dots1 ++ [d] } g2

/-- The `target_dot_ratio` setter: clamp the value to `[0, 1]` with the two
`if`s of the source, compute `goal = int(len(dots) * value)`, then run the
adjustment loop. -/
def set_target_dot_ratio (T : Trig) (value : ℚ) (fuel sf : ℕ) (s : RDKState) (g : RNG) :
    Option (RDKState × RNG) :=
  let v1 := if value < 0 then 0 else value
  let v2 := if v1 > 1 then 1 else v1
  let goal := pyInt ((s.dots.length : ℚ) * v2)
  setterLoop T goal sf fuel s g

/-- The dot-construction step of `RandomDotKinematogram.reset`:
`map(lambda x: _make_random_dot(direction=None,
extra_age=int(random.random() * dot_lifetime)), range(n_dots))`. -/
def mkDots (T : Trig) (s : RDKState) : ℕ → ℕ → RNG → Option (List MovingPosition × RNG)
  | 0, _, g => some ([], g)
  | n + 1, sf, g =>
    let (r, g1) := g.next
    match mkRandomDot T s none ((pyInt (r * s.dot_lifetime) : ℤ) : ℚ) sf g1 with
    | none => none
    | some (d, g2) =>
      match mkDots T s n sf g2 with
      | none => none
      | some (ds, g3) => some (d :: ds, g3)

/-- Source `RandomDotKinematogram.reset(n_dots, target_direction, target_dot_ratio)`:
store the target direction, rebuild the dot list, then run the
`target_dot_ratio` setter. -/
def reset (T : Trig) (n_dots : ℕ) (target_direction ratio : ℚ) (fuel sf : ℕ)
    (s : RDKState) (g : RNG) : Option (RDKState × RNG) :=
  let s1 := { s with target_direction := target_direction }
  match mkDots T s1 n_dots sf g with
  | none => none
  | some (ds, g1) => set_target_dot_ratio T ratio fuel sf { s1 with dots := ds } g1

/-- Source `_process_dot` inside `RandomDotKinematogram.make_frame`: a dead or
out-of-range dot is replaced (a target by a fresh target with the same
direction, a non-target by a fresh random-direction dot); the resulting dot is
the one plotted. -/
def processDot (T : Trig) (s : RDKState) (sf : ℕ) (d : MovingPosition) (g : RNG) :
    Option (MovingPosition × RNG) :=
  if d.is_dead || d.is_outside s.area_radius then
    if d.is_target then
      match mkRandomDot T s (some d.direction) 0 sf g with
      | none => none
      | some (d', g') => some ({ d' with is_target := true }, g')
    else
      mkRandomDot T s none 0 sf g
  else some (d, g)

/-- Source `self.dots = map(_process_dot, self.dots)` (Python 2 `map`: a list,
processed left to right), threading the random stream. -/
def mapProcess (T : Trig) (s : RDKState) (sf : ℕ) :
    List MovingPosition → RNG → Option (List MovingPosition × RNG)
  | [], g => some ([], g)
  | d :: rest, g =>
    match processDot T s sf d g with
    | none => none
    | some (d', g') =>
      match mapProcess T s sf rest g' with
      | none => none
      | some (rest', g'') => some (d' :: rest', g'')

/-- Source `RandomDotKinematogram.make_frame` restricted to its dot-state effect
(clearing the canvas and plotting circles are GUI-only). -/
def make_frame (T : Trig) (s : RDKState) (sf : ℕ) (g : RNG) : Option (RDKState × RNG) :=
  match mapProcess T s sf s.dots g with
  | none => none
  | some (dots', g') => some ({ s with dots := dots' }, g')

/-- The per-dot effect of one `make_frame` call (claim C4's description):
a live in-range dot is kept unchanged; a dead or out-of-range target dot is
replaced by a target dot with the same direction; a dead or out-of-range
non-target dot is replaced by a non-target dot whose direction is a fresh
draw from the random stream times 360. -/
def frameRel (R : ℚ) (stream : ℕ → ℚ) (d d' : MovingPosition) : Prop :=
  (¬(d.is_dead = true ∨ d.is_outside R = true) ∧ d' = d)
  ∨ ((d.is_dead = true ∨ d.is_outside R = true) ∧ d.is_target = true ∧
      d'.is_target = true ∧ d'.direction = d.direction)
  ∨ ((d.is_dead = true ∨ d.is_outside R = true) ∧ d.is_target = false ∧
      d'.is_target = false ∧ ∃ i, d'.direction = stream i * 360)

/-- A random stream for which every position drawn by the rejection sampler
for arena radius `R` is accepted immediately: any two consecutive draws give a
point strictly inside the arena. -/
def SampleFriendly (stream : ℕ → ℚ) (R : ℚ) : Prop :=
  ∀ i, hypotLt ((pyInt (R - stream i * 2 * R) : ℤ) : ℚ)
        ((pyInt (R - stream (i + 1) * 2 * R) : ℤ) : ℚ) R = true

/-! ### `expyriment/misc/_miscellaneous.py` -/

/-- A Python string value as seen by the codec helpers: either a unicode
string (a list of code points) or a byte string (a list of bytes). -/
inductive PyStr where
  | uni : List ℕ → PyStr
  | bytes : List ℕ → PyStr
deriving DecidableEq

/-- The codecs used by `byte2unicode` / `unicode2byte`, opaque to the claims:
decoding/encoding with `FS_ENC` or `LOCALE_ENC` may raise
`UnicodeDecodeError` / `UnicodeEncodeError` (the `Except` error), while
utf-8 with the `'replace'` error handler is total. -/
structure Codec where
  decodeFS : List ℕ → Except Unit (List ℕ)
  decodeLocale : List ℕ → Except Unit (List ℕ)
  decodeUtf8Replace : List ℕ → List ℕ
  encodeFS : List ℕ → Except Unit (List ℕ)
  encodeLocale : List ℕ → Except Unit (List ℕ)
  encodeUtf8Replace : List ℕ → List ℕ

/-- Source `byte2unicode(s, fse)`: unicode input is returned unmodified; byte input
is decoded with `FS_ENC` (when `fse`) or `LOCALE_ENC`, falling back to
`s.decode('utf-8', 'replace')` when that decode raises `UnicodeDecodeError`.
The result is `Except.error` only if the function itself would raise. -/
def byte2unicode (C : Codec) (s : PyStr) (fse : Bool) : Except Unit PyStr :=
  match s with
  | PyStr.uni u => Except.ok (PyStr.uni u)
  | PyStr.bytes b =>
    if fse then
      match C.decodeFS b with
      | Except.ok u => Except.ok (PyStr.uni u)
      | Except.error _ => Except.ok (PyStr.uni (C.decodeUtf8Replace b))
    else
      match C.decodeLocale b with
      | Except.ok u => Except.ok (PyStr.uni u)
      | Except.error _ => Except.ok (PyStr.uni (C.decodeUtf8Replace b))

/-- Source `unicode2byte(u, fse)`: byte input is returned unmodified; unicode input
is encoded with `FS_ENC` (when `fse`) or `LOCALE_ENC`, falling back to
`u.encode('utf-8', 'replace')` on `UnicodeEncodeError`. -/
def unicode2byte (C : Codec) (u : PyStr) (fse : Bool) : Except Unit PyStr :=
  match u with
  | PyStr.bytes b => Except.ok (PyStr.bytes b)
  | PyStr.uni v =>
    if fse then
      match C.encodeFS v with
      | Except.ok b => Except.ok (PyStr.bytes b)
      | Except.error _ => Except.ok (PyStr.bytes (C.encodeUtf8Replace v))
    else
      match C.encodeLocale v with
      | Except.ok b => Except.ok (PyStr.bytes b)
      | Except.error _ => Except.ok (PyStr.bytes (C.encodeUtf8Replace v))

/-- Source `str2unicode(s, fse)`: `return byte2unicode(s, fse)`. -/
def str2unicode (C : Codec) (s : PyStr) (fse : Bool) : Except Unit PyStr :=
  byte2unicode C s fse

/-- Source `unicode2str(u, fse)`: `return unicode2byte(u, fse)`. -/
def unicode2str (C : Codec) (u : PyStr) (fse : Bool) : Except Unit PyStr :=
  unicode2byte C u fse

/-- The OS facts consulted by `which` (paths are lists of characters):
`os.path.isfile`, `os.access(., os.X_OK)` and `os.environ["PATH"]`. -/
structure OS where
  isfile : List Char → Bool
  access_x : List Char → Bool
  path_env : List Char

/-- The inner `is_exe` of `which`:
`os.path.isfile(fpath) and os.access(fpath, os.X_OK)`. -/
def is_exe (o : OS) (fpath : List Char) : Bool := o.isfile fpath && o.access_x fpath

/-- The head `p[:i]` (with `i = p.rfind('/') + 1`) of POSIX
`os.path.split(p)`: everything up to and including the last `'/'`.
(`posixpath.split` then right-strips slashes from a head that is not all
slashes, which never changes its truthiness — the only thing `which` uses.) -/
def pySplitHead (s : List Char) : List Char :=
  (s.reverse.dropWhile (fun c => ! decide (c = '/'))).reverse

/-- Python `path.strip('"')`: drop leading and trailing double quotes. -/
def pyStripQuotes (s : List Char) : List Char :=
  ((s.dropWhile (fun c => decide (c = '"'))).reverse.dropWhile
    (fun c => decide (c = '"'))).reverse

/-- POSIX `os.path.join(a, b)` for two components. -/
def pyJoin (a b : List Char) : List Char :=
  if b.head? = some '/' then b
  else if a.isEmpty || a.getLast? = some '/' then a ++ b
  else a ++ '/' :: b

/-- Source `which(programme)`: if the programme has a directory part, return it when
it is an executable file; otherwise scan the entries of `PATH` (split on the
POSIX `os.pathsep` `':'`, each entry stripped of double quotes) and return the
first join that is an executable file; else `None`. -/
def which (o : OS) (programme : List Char) : Option (List Char) :=
  if (pySplitHead programme).isEmpty then
    (o.path_env.splitOn ':').findSome? (fun path =>
      let exe_file := pyJoin (pyStripQuotes path) programme
      if is_exe o exe_file then some exe_file else none)
  else
    if is_exe o programme then some programme else none

/-- Python-level errors raised by `create_colours`. -/
inductive PyError where
  | zeroDivision : PyError
  | valueError : PyError
deriving DecidableEq

/-- The `_v` helper of `colorsys.hls_to_rgb` (stdlib, called by
`create_colours`); `hue % 1.0` is the fractional part. -/
def hlsV (m1 m2 hue : ℚ) : ℚ :=
  let h := Int.fract hue
  if h < 1 / 6 then m1 + (m2 - m1) * h * 6
  else if h < 1 / 2 then m2
  else if h < 2 / 3 then m1 + (m2 - m1) * (2 / 3 - h) * 6
  else m1

/-- Source `colorsys.hls_to_rgb(h, l, s)` (Python stdlib). -/
def hls_to_rgb (h l s : ℚ) : ℚ × ℚ × ℚ :=
  if s = 0 then (l, l, l)
  else
    let m2 := if l ≤ 1 / 2 then l * (1 + s) else l + s - l * s
    let m1 := 2 * l - m2
    (hlsV m1 m2 (h + 1 / 3), hlsV m1 m2 h, hlsV m1 m2 (h - 1 / 3))

/-- Source `range(0, stop, step)` for a positive step, written with fuel (`fuel ≥
stop` iterations always suffice when `1 ≤ step`). -/
def pyRangeF (stop step : ℕ) : ℕ → ℕ → List ℕ
  | 0, _ => []
  | fuel + 1, cur => if cur < stop then cur :: pyRangeF stop step fuel (cur + step) else []

/-- One iteration of the `create_colours` loop: `h = i / 360.0`,
`l = (50 + random()*10)/100`, `s = (90 + random()*10)/100`, and the colour is
`[int(x * 255) for x in colorsys.hls_to_rgb(h, l, s)]`. -/
def colourStep (i : ℕ) (g : RNG) : List ℤ × RNG :=
  let h := (i : ℚ) / 360
  let (r1, g1) := g.next
  let l := (50 + r1 * 10) / 100
  let (r2, g2) := g1.next
  let s := (90 + r2 * 10) / 100
  let c := hls_to_rgb h l s
  ([pyInt (c.1 * 255), pyInt (c.2.1 * 255), pyInt (c.2.2 * 255)], g2)

/-- The `create_colours` loop body over the range values. -/
def colourList : List ℕ → RNG → List (List ℤ) × RNG
  | [], g => ([], g)
  | i :: rest, g =>
    let (c, g1) := colourStep i g
    let (cs, g2) := colourList rest g1
    (c :: cs, g2)

/-- Source `create_colours(amount)`: iterate over `range(0, 360, 360 // amount)`.
`360 // amount` raises `ZeroDivisionError` when `amount = 0`, and `range`
raises `ValueError` when the step `360 // amount` is `0` (i.e. `amount > 360`). -/
def create_colours (amount : ℕ) (g : RNG) : Except PyError (List (List ℤ) × RNG) :=
  if amount = 0 then Except.error PyError.zeroDivision
  else
    let step := 360 / amount
    if step = 0 then Except.error PyError.valueError
    else Except.ok (colourList (pyRangeF 360 step 360 0) g)

/-! ### Concrete instances used to evaluate the theorems on closed inputs -/

/-- A concrete interpretation of the transcendental parameters. -/
def trig0 : Trig := ⟨22 / 7, fun _ => 3 / 5, fun _ => 4 / 5⟩

/-- The constant random stream `1/2` (every sampled dot starts at `(0, 0)`). -/
def rng0 : RNG := ⟨fun _ => 1 / 2, 0⟩

/-- A live, in-range, non-target dot (its own clock reads 10 ms). -/
def dot0 : MovingPosition :=
  { start := (1, 2), lifetime := 400, extra_age := 0, is_target := false,
    speed := 100, nuc := [true], direction := 90, movement_vector := (0, 0),
    clockTime := 10 }

/-- An expired target dot (its own clock reads 500 ms ≥ its 400 ms lifetime). -/
def dot1 : MovingPosition :=
  { start := (1, 2), lifetime := 400, extra_age := 0, is_target := true,
    speed := 100, nuc := [true], direction := 45, movement_vector := (0, 0),
    clockTime := 500 }

/-- A kinematogram state with two non-target dots. -/
def state0 : RDKState :=
  { area_radius := 10, dot_speed := 100, dot_lifetime := 400,
    north_up_clockwise := true, target_direction := 90, dots := [dot0, dot0] }

/-- A kinematogram state with a live non-target dot and an expired target dot. -/
def state1 : RDKState :=
  { area_radius := 10, dot_speed := 100, dot_lifetime := 400,
    north_up_clockwise := true, target_direction := 90, dots := [dot0, dot1] }

/-- A concrete codec for evaluating the string-conversion theorems. -/
def codec0 : Codec :=
  { decodeFS := fun _ => Except.error (), decodeLocale := fun b => Except.ok b,
    decodeUtf8Replace := fun _ => [65], encodeFS := fun _ => Except.error (),
    encodeLocale := fun u => Except.ok u, encodeUtf8Replace := fun _ => [66] }

/-- A concrete file system in which exactly `/bin/sh` is an executable file. -/
def os0 : OS :=
  { isfile := fun f => decide (f = ['/', 'b', 'i', 'n', '/', 's', 'h']),
    access_x := fun _ => true,
    path_env := ['/', 'u', 's', 'r', ':', '/', 'b', 'i', 'n'] }

/-! ### Helper lemmas -/

theorem pyInt_of_nonneg {q : ℚ} (h : 0 ≤ q) : pyInt q = ⌊q⌋ := by
  rw [pyInt, if_pos h, Rat.floor_def', ← Rat.floor_def]

theorem targetSum_le_length (l : List MovingPosition) : targetSum l ≤ l.length := by
  induction l with
  | nil => simp [targetSum]
  | cons d rest ih =>
    simp only [targetSum, List.map_cons, List.sum_cons, List.length_cons] at *
    split <;> omega

theorem targetSum_cons (d : MovingPosition) (l : List MovingPosition) :
    targetSum (d :: l) = (if d.is_target then 1 else 0) + targetSum l := by
  simp [targetSum]

theorem targetSum_append_one (l : List MovingPosition) (d : MovingPosition) :
    targetSum (l ++ [d]) = targetSum l + (if d.is_target then 1 else 0) := by
  simp [targetSum]

theorem exists_nontarget {l : List MovingPosition} (h : targetSum l < l.length) :
    ∃ d ∈ l, d.is_target = false := by
  induction l with
  | nil => simp at h
  | cons d rest ih =>
    rw [targetSum_cons] at h
    by_cases hd : d.is_target
    · simp only [hd, if_true, List.length_cons] at h
      obtain ⟨e, he, hne⟩ := ih (by omega)
      exact ⟨e, List.mem_cons_of_mem _ he, hne⟩
    · exact ⟨d, List.mem_cons_self _ _, by simpa using hd⟩

theorem exists_target {l : List MovingPosition} (h : 0 < targetSum l) :
    ∃ d ∈ l, d.is_target = true := by
  induction l with
  | nil => simp [targetSum] at h
  | cons d rest ih =>
    rw [targetSum_cons] at h
    by_cases hd : d.is_target = true
    · exact ⟨d, List.mem_cons_self _ _, hd⟩
    · rw [Bool.not_eq_true] at hd
      rw [hd] at h
      simp only [Bool.false_eq_true, if_false, Nat.zero_add] at h
      obtain ⟨e, he, hte⟩ := ih h
      exact ⟨e, List.mem_cons_of_mem _ he, hte⟩

theorem removeFirst_length {p : MovingPosition → Bool} {l : List MovingPosition}
    (h : ∃ d ∈ l, p d = true) : (removeFirst p l).length + 1 = l.length := by
  induction l with
  | nil => simp at h
  | cons d rest ih =>
    by_cases hd : p d = true
    · simp [removeFirst, hd]
    · rw [Bool.not_eq_true] at hd
      obtain ⟨e, he, hpe⟩ := h
      rcases List.mem_cons.mp he with rfl | he'
      · exact absurd hpe (by simp [hd])
      · simp only [removeFirst, hd, Bool.false_eq_true, if_false, List.length_cons]
        rw [← ih ⟨e, he', hpe⟩]

theorem targetSum_removeFirst_nontarget (l : List MovingPosition) :
    targetSum (removeFirst (fun d => ! d.is_target) l) = targetSum l := by
  induction l with
  | nil => rfl
  | cons d rest ih =>
    by_cases hd : d.is_target
    · simp [removeFirst, hd, targetSum_cons, ih]
    · simp [removeFirst, hd, targetSum_cons]

theorem targetSum_removeFirst_target {l : List MovingPosition}
    (h : ∃ d ∈ l, d.is_target = true) :
    targetSum (removeFirst MovingPosition.is_target l) + 1 = targetSum l := by
  induction l with
  | nil => simp at h
  | cons d rest ih =>
    by_cases hd : d.is_target = true
    · simp [removeFirst, hd, targetSum_cons, Nat.add_comm]
    · rw [Bool.not_eq_true] at hd
      obtain ⟨e, he, hte⟩ := h
      rcases List.mem_cons.mp he with rfl | he'
      · exact absurd hte (by simp [hd])
      · simp only [removeFirst, hd, Bool.false_eq_true, if_false, targetSum_cons,
          Nat.zero_add]
        rw [← ih ⟨e, he', hte⟩]

theorem sampleInsidePos_spec {R : ℚ} :
    ∀ (f : ℕ) (g : RNG) (p : (ℚ × ℚ) × RNG),
      sampleInsidePos R f g = some p →
      p.2.stream = g.stream ∧ hypotLt p.1.1 p.1.2 R = true := by
  intro f
  induction f with
  | zero => intro g p h; exact absurd h (by simp [sampleInsidePos])
  | succ f ih =>
    intro g p h
    rw [sampleInsidePos] at h
    dsimp only [RNG.next] at h
    split at h
    · cases h
      exact ⟨rfl, by assumption⟩
    · exact ih ⟨g.stream, g.idx + 1 + 1⟩ p h

theorem sampleInsidePos_of_friendly {R : ℚ} {g : RNG} {f : ℕ}
    (hf : 1 ≤ f) (hg : SampleFriendly g.stream R) :
    ∃ p, sampleInsidePos R f g = some p := by
  obtain ⟨f, rfl⟩ := Nat.exists_eq_add_of_le hf
  rw [Nat.add_comm, sampleInsidePos]
  dsimp only [RNG.next]
  rw [if_pos (hg g.idx)]
  exact ⟨_, rfl⟩

theorem mkRandomDot_spec {T : Trig} {s : RDKState} {dir : Option ℚ} {ea : ℚ}
    {sf : ℕ} {g : RNG} {d : MovingPosition} {g' : RNG}
    (h : mkRandomDot T s dir ea sf g = some (d, g')) :
    g'.stream = g.stream ∧ d.is_target = false ∧ d.clockTime = 0 ∧
    hypotLt d.start.1 d.start.2 s.area_radius = true ∧ d.extra_age = ea ∧
    d.lifetime = s.dot_lifetime ∧
    (∀ dd, dir = some dd → d.direction = dd) ∧
    (dir = none → ∃ i, d.direction = g.stream i * 360) := by
  rw [mkRandomDot] at h
  rcases hs : sampleInsidePos s.area_radius sf g with _ | ⟨pos, g1⟩
  · rw [hs] at h; exact absurd h (by simp)
  · rw [hs] at h
    obtain ⟨hstream, hin⟩ := sampleInsidePos_spec _ _ _ hs
    cases dir with
    | some dd =>
      simp only [Option.some.injEq, Prod.mk.injEq] at h
      obtain ⟨hd, hg⟩ := h
      subst hd
      subst hg
      refine ⟨hstream, rfl, rfl, hin, rfl, rfl, ?_, ?_⟩
      · intro x hx
        cases hx
        rfl
      · intro hx
        cases hx
    | none =>
      dsimp only [RNG.next] at h
      simp only [Option.some.injEq, Prod.mk.injEq] at h
      obtain ⟨hd, hg⟩ := h
      subst hd
      subst hg
      refine ⟨hstream, rfl, rfl, hin, rfl, rfl, ?_, ?_⟩
      · intro x hx
        cases hx
      · intro _
        refine ⟨g1.idx, ?_⟩
        show g1.stream g1.idx * 360 = g.stream g1.idx * 360
        rw [hstream]

theorem mkRandomDot_of_friendly {T : Trig} {s : RDKState} {dir : Option ℚ}
    {ea : ℚ} {sf : ℕ} {g : RNG} (hf : 1 ≤ sf)
    (hg : SampleFriendly g.stream s.area_radius) :
    ∃ r, mkRandomDot T s dir ea sf g = some r := by
  obtain ⟨p, hp⟩ := sampleInsidePos_of_friendly hf hg
  rw [mkRandomDot, hp]
  cases dir <;> exact ⟨_, rfl⟩

theorem setterLoop_spec {T : Trig} {goal : ℤ} {sf : ℕ} :
    ∀ (fuel : ℕ) (s : RDKState) (g : RNG) (r : RDKState × RNG),
      0 ≤ goal → goal ≤ (s.dots.length : ℤ) →
      setterLoop T goal sf fuel s g = some r →
      r.1.dots.length = s.dots.length ∧ (targetSum r.1.dots : ℤ) = goal := by
  intro fuel
  induction fuel with
  | zero =>
    intro s g r h0 hlen h
    rw [setterLoop] at h
    by_cases hc : (targetSum s.dots : ℤ) = goal
    · rw [if_pos hc] at h
      cases h
      exact ⟨rfl, hc⟩
    · rw [if_neg hc] at h
      exact absurd h (by simp)
  | succ fuel ih =>
    intro s g r h0 hlen h
    rw [setterLoop] at h
    by_cases hc : (targetSum s.dots : ℤ) = goal
    · rw [if_pos hc] at h
      cases h
      exact ⟨rfl, hc⟩
    · rw [if_neg hc] at h
      dsimp only [RNG.next] at h
      have hle := targetSum_le_length s.dots
      split at h
      next hlt =>
        have hex : ∃ e ∈ s.dots, (! e.is_target) = true := by
          have hx : targetSum s.dots < s.dots.length := by omega
          obtain ⟨e, he, hfe⟩ := exists_nontarget hx
          exact ⟨e, he, by simp [hfe]⟩
        split at h
        · exact absurd h (by simp)
        next d g2 heq =>
          have h1 := @removeFirst_length (fun d => ! d.is_target) s.dots hex
          obtain ⟨ha, hb⟩ := ih _ _ _ h0 (by
            show goal ≤ ((removeFirst (fun d => ! d.is_target) s.dots ++
              [{ d with is_target := true }]).length : ℤ)
            simp only [List.length_append, List.length_cons, List.length_nil]
            omega) h
          refine ⟨?_, hb⟩
          rw [ha]
          show (removeFirst (fun d => ! d.is_target) s.dots ++
            [{ d with is_target := true }]).length = s.dots.length
          simp only [List.length_append, List.length_cons, List.length_nil]
          omega
      next hge =>
        have hex : ∃ e ∈ s.dots, e.is_target = true := by
          apply exists_target
          omega
        split at h
        · exact absurd h (by simp)
        next d g2 heq =>
          have h1 := @removeFirst_length MovingPosition.is_target s.dots hex
          obtain ⟨ha, hb⟩ := ih _ _ _ h0 (by
            show goal ≤ ((removeFirst MovingPosition.is_target s.dots ++ [d]).length : ℤ)
            simp only [List.length_append, List.length_cons, List.length_nil]
            omega) h
          refine ⟨?_, hb⟩
          rw [ha]
          show (removeFirst MovingPosition.is_target s.dots ++ [d]).length = s.dots.length
          simp only [List.length_append, List.length_cons, List.length_nil]
          omega

theorem setterLoop_of_friendly {T : Trig} {goal : ℤ} {sf : ℕ} (hsf : 1 ≤ sf) :
    ∀ (fuel : ℕ) (s : RDKState) (g : RNG),
      SampleFriendly g.stream s.area_radius →
      0 ≤ goal → goal ≤ (s.dots.length : ℤ) →
      (goal - (targetSum s.dots : ℤ)).natAbs ≤ fuel →
      (setterLoop T goal sf fuel s g).isSome = true := by
  intro fuel
  induction fuel with
  | zero =>
    intro s g hg h0 hlen hfu
    have hc : (targetSum s.dots : ℤ) = goal := by omega
    rw [setterLoop, if_pos hc]
    rfl
  | succ fuel ih =>
    intro s g hg h0 hlen hfu
    rw [setterLoop]
    by_cases hc : (targetSum s.dots : ℤ) = goal
    · rw [if_pos hc]; rfl
    · rw [if_neg hc]
      dsimp only [RNG.next]
      have hle := targetSum_le_length s.dots
      by_cases hlt : (targetSum s.dots : ℤ) < goal
      · rw [if_pos hlt]
        have hex : ∃ e ∈ s.dots, (! e.is_target) = true := by
          have hx : targetSum s.dots < s.dots.length := by omega
          obtain ⟨e, he, hfe⟩ := exists_nontarget hx
          exact ⟨e, he, by simp [hfe]⟩
        obtain ⟨⟨d, g2⟩, heq⟩ := @mkRandomDot_of_friendly T s (some s.target_direction)
          ((pyInt (g.stream g.idx * s.dot_lifetime) : ℤ) : ℚ) sf ⟨g.stream, g.idx + 1⟩ hsf hg
        rw [heq]
        obtain ⟨hstream, hdt, -, -, -, -, -, -⟩ := mkRandomDot_spec heq
        have h1 := @removeFirst_length (fun d => ! d.is_target) s.dots hex
        have h2 := targetSum_removeFirst_nontarget s.dots
        apply ih
        · show SampleFriendly g2.stream s.area_radius
          rw [hstream]
          exact hg
        · exact h0
        · show goal ≤ ((removeFirst (fun d => ! d.is_target) s.dots ++
            [{ d with is_target := true }]).length : ℤ)
          simp only [List.length_append, List.length_cons, List.length_nil]
          omega
        · have h4 : targetSum (removeFirst (fun d => ! d.is_target) s.dots ++
              [{ d with is_target := true }]) = targetSum s.dots + 1 := by
            rw [targetSum_append_one, h2]
            simp
          show (goal - (targetSum (removeFirst (fun d => ! d.is_target) s.dots ++
            [{ d with is_target := true }]) : ℤ)).natAbs ≤ fuel
          rw [h4]
          omega
      · rw [if_neg hlt]
        have hex : ∃ e ∈ s.dots, e.is_target = true := by
          apply exists_target
          omega
        obtain ⟨⟨d, g2⟩, heq⟩ := @mkRandomDot_of_friendly T s none
          ((pyInt (g.stream g.idx * s.dot_lifetime) : ℤ) : ℚ) sf ⟨g.stream, g.idx + 1⟩ hsf hg
        rw [heq]
        obtain ⟨hstream, hdt, -, -, -, -, -, -⟩ := mkRandomDot_spec heq
        have h1 := @removeFirst_length MovingPosition.is_target s.dots hex
        have h2 := targetSum_removeFirst_target hex
        apply ih
        · show SampleFriendly g2.stream s.area_radius
          rw [hstream]
          exact hg
        · exact h0
        · show goal ≤ ((removeFirst MovingPosition.is_target s.dots ++ [d]).length : ℤ)
          simp only [List.length_append, List.length_cons, List.length_nil]
          omega
        · show (goal - (targetSum (removeFirst MovingPosition.is_target s.dots ++
            [d]) : ℤ)).natAbs ≤ fuel
          rw [targetSum_append_one]
          rw [hdt]
          simp only [Bool.false_eq_true, if_false, Nat.add_zero]
          omega

theorem position_clockTime_zero (m : MovingPosition) (h : m.clockTime = 0) :
    m.position = m.start := by
  simp [MovingPosition.position, h]

theorem processDot_spec {T : Trig} {s : RDKState} {sf : ℕ} {d d' : MovingPosition}
    {g g' : RNG} (h : processDot T s sf d g = some (d', g')) :
    g'.stream = g.stream ∧ frameRel s.area_radius g.stream d d' ∧
    d'.is_target = d.is_target ∧
    hypotLt d'.position.1 d'.position.2 s.area_radius = true := by
  rw [processDot] at h
  by_cases hdead : (d.is_dead || d.is_outside s.area_radius) = true
  · rw [if_pos hdead] at h
    have hor : d.is_dead = true ∨ d.is_outside s.area_radius = true := by
      simpa [Bool.or_eq_true] using hdead
    by_cases htgt : d.is_target = true
    · rw [if_pos htgt] at h
      rcases heq : mkRandomDot T s (some d.direction) 0 sf g with _ | ⟨dd, g2⟩
      · rw [heq] at h; exact absurd h (by simp)
      · rw [heq] at h
        simp only [Option.some.injEq, Prod.mk.injEq] at h
        obtain ⟨hd, hg⟩ := h
        subst hd
        subst hg
        obtain ⟨hstream, -, hclock, hin, -, -, hdir, -⟩ := mkRandomDot_spec heq
        refine ⟨hstream, Or.inr (Or.inl ⟨hor, htgt, rfl, hdir _ rfl⟩), by rw [htgt], ?_⟩
        have hpos : ({ dd with is_target := true } : MovingPosition).position =
            dd.start := by
          apply position_clockTime_zero
          exact hclock
        rw [hpos]
        exact hin
    · rw [if_neg htgt] at h
      rw [Bool.not_eq_true] at htgt
      obtain ⟨hstream, hdt, hclock, hin, -, -, -, hdir⟩ := mkRandomDot_spec h
      refine ⟨hstream, Or.inr (Or.inr ⟨hor, htgt, hdt, hdir rfl⟩), by rw [hdt, htgt], ?_⟩
      rw [position_clockTime_zero _ hclock]
      exact hin
  · rw [if_neg hdead] at h
    cases h
    have hout : d.is_outside s.area_radius = false := by
      rcases Bool.or_eq_false_iff.mp (Bool.not_eq_true _ ▸ hdead) with ⟨-, h2⟩
      exact h2
    refine ⟨rfl, Or.inl ⟨?_, rfl⟩, rfl, ?_⟩
    · rw [Bool.or_eq_true] at hdead
      tauto
    · rw [MovingPosition.is_outside] at hout
      rw [hypotLt, hout]
      rfl

theorem mapProcess_spec {T : Trig} {s : RDKState} {sf : ℕ} :
    ∀ (l : List MovingPosition) (g : RNG) (r : List MovingPosition × RNG),
      mapProcess T s sf l g = some r →
      r.2.stream = g.stream ∧ List.Forall₂ (frameRel s.area_radius g.stream) l r.1 ∧
      targetSum r.1 = targetSum l ∧
      (∀ d' ∈ r.1, hypotLt d'.position.1 d'.position.2 s.area_radius = true) := by
  intro l
  induction l with
  | nil =>
    intro g r h
    rw [mapProcess] at h
    cases h
    exact ⟨rfl, List.Forall₂.nil, rfl, by simp⟩
  | cons d rest ih =>
    intro g r h
    rw [mapProcess] at h
    rcases h1 : processDot T s sf d g with _ | ⟨d', g'⟩
    · rw [h1] at h; exact absurd h (by simp)
    · rw [h1] at h
      dsimp only at h
      rcases h2 : mapProcess T s sf rest g' with _ | ⟨rest', g''⟩
      · rw [h2] at h; exact absurd h (by simp)
      · rw [h2] at h
        cases h
        obtain ⟨hs1, hrel, htgt, hin⟩ := processDot_spec h1
        obtain ⟨hs2, hrel2, htgt2, hin2⟩ := ih _ _ h2
        refine ⟨?_, ?_, ?_, ?_⟩
        · show g''.stream = g.stream
          rw [hs2, hs1]
        · show List.Forall₂ (frameRel s.area_radius g.stream) (d :: rest) (d' :: rest')
          refine List.Forall₂.cons hrel ?_
          rw [← hs1]
          exact hrel2
        · show targetSum (d' :: rest') = targetSum (d :: rest)
          rw [targetSum_cons, targetSum_cons, htgt, htgt2]
        · intro e he
          rcases List.mem_cons.mp he with rfl | he'
          · exact hin
          · exact hin2 _ he'

theorem make_frame_spec {T : Trig} {s : RDKState} {sf : ℕ} {g : RNG}
    {r : RDKState × RNG} (h : make_frame T s sf g = some r) :
    r.1.dots.length = s.dots.length ∧ n_target_dots r.1 = n_target_dots s ∧
    List.Forall₂ (frameRel s.area_radius g.stream) s.dots r.1.dots ∧
    (∀ d' ∈ r.1.dots, hypotLt d'.position.1 d'.position.2 s.area_radius = true) := by
  rw [make_frame] at h
  rcases h1 : mapProcess T s sf s.dots g with _ | ⟨dots', g'⟩
  · rw [h1] at h; exact absurd h (by simp)
  · rw [h1] at h
    cases h
    obtain ⟨-, hrel, htgt, hin⟩ := mapProcess_spec _ _ _ h1
    exact ⟨(List.Forall₂.length_eq hrel).symm, htgt, hrel, hin⟩

theorem mkDots_length {T : Trig} {s : RDKState} :
    ∀ (n sf : ℕ) (g : RNG) (r : List MovingPosition × RNG),
      mkDots T s n sf g = some r → r.1.length = n ∧ r.2.stream = g.stream := by
  intro n
  induction n with
  | zero =>
    intro sf g r h
    rw [mkDots] at h
    cases h
    exact ⟨rfl, rfl⟩
  | succ n ih =>
    intro sf g r h
    rw [mkDots] at h
    dsimp only [RNG.next] at h
    rcases h1 : mkRandomDot T s none
        ((pyInt (g.stream g.idx * s.dot_lifetime) : ℤ) : ℚ) sf ⟨g.stream, g.idx + 1⟩
      with _ | ⟨d, g2⟩
    · rw [h1] at h; exact absurd h (by simp)
    · rw [h1] at h
      dsimp only at h
      rcases h2 : mkDots T s n sf g2 with _ | ⟨ds, g3⟩
      · rw [h2] at h; exact absurd h (by simp)
      · rw [h2] at h
        cases h
        obtain ⟨hl, hs⟩ := ih _ _ _ h2
        obtain ⟨hs1, -, -, -, -, -, -, -⟩ := mkRandomDot_spec h1
        refine ⟨by rw [List.length_cons, hl], by rw [hs, hs1]⟩

theorem mkDots_spec {T : Trig} {s : RDKState} {L : ℤ} (hL : s.dot_lifetime = (L : ℚ))
    (hL1 : 1 ≤ L) :
    ∀ (n sf : ℕ) (g : RNG), RNG.valid g →
      ∀ (r : List MovingPosition × RNG), mkDots T s n sf g = some r →
      ∀ d ∈ r.1, 0 ≤ d.extra_age ∧ d.extra_age ≤ (L : ℚ) - 1 ∧ d.is_dead = false ∧
        (∃ i, d.direction = g.stream i * 360) := by
  intro n
  induction n with
  | zero =>
    intro sf g hv r h
    rw [mkDots] at h
    cases h
    simp
  | succ n ih =>
    intro sf g hv r h
    rw [mkDots] at h
    dsimp only [RNG.next] at h
    rcases h1 : mkRandomDot T s none
        ((pyInt (g.stream g.idx * s.dot_lifetime) : ℤ) : ℚ) sf ⟨g.stream, g.idx + 1⟩
      with _ | ⟨d, g2⟩
    · rw [h1] at h; exact absurd h (by simp)
    · rw [h1] at h
      dsimp only at h
      rcases h2 : mkDots T s n sf g2 with _ | ⟨ds, g3⟩
      · rw [h2] at h; exact absurd h (by simp)
      · rw [h2] at h
        cases h
        obtain ⟨hs1, -, hclock, -, hea, hlife, -, hdir⟩ := mkRandomDot_spec h1
        intro e he
        rcases List.mem_cons.mp he with rfl | he'
        · -- the head dot: extra_age = int(random * lifetime) ∈ [0, L-1]
          obtain ⟨hr0, hr1⟩ := hv g.idx
          have hprod0 : (0 : ℚ) ≤ g.stream g.idx * s.dot_lifetime := by
            rw [hL]
            have : (0 : ℚ) ≤ (L : ℚ) := by exact_mod_cast (by omega : (0 : ℤ) ≤ L)
            exact mul_nonneg hr0 this
          have hprodlt : g.stream g.idx * s.dot_lifetime < (L : ℚ) := by
            rw [hL]
            have hLpos : (0 : ℚ) < (L : ℚ) := by exact_mod_cast (by omega : (0 : ℤ) < L)
            calc g.stream g.idx * (L : ℚ) < 1 * (L : ℚ) :=
                  mul_lt_mul_of_pos_right hr1 hLpos
              _ = (L : ℚ) := one_mul _
          have hfloor : pyInt (g.stream g.idx * s.dot_lifetime) =
              ⌊g.stream g.idx * s.dot_lifetime⌋ := pyInt_of_nonneg hprod0
          have hfl0 : (0 : ℤ) ≤ ⌊g.stream g.idx * s.dot_lifetime⌋ :=
            Int.floor_nonneg.mpr hprod0
          have hflL : ⌊g.stream g.idx * s.dot_lifetime⌋ < L := by
            rw [Int.floor_lt]
            exact hprodlt
          refine ⟨?_, ?_, ?_, ?_⟩
          · rw [hea, hfloor]
            exact_mod_cast hfl0
          · rw [hea, hfloor]
            have : (⌊g.stream g.idx * s.dot_lifetime⌋ : ℤ) ≤ L - 1 := by omega
            exact_mod_cast this
          · rw [MovingPosition.is_dead, hclock, hea, hfloor, hlife, hL]
            simp only [decide_eq_false_iff_not, not_le]
            have hx : ⌊g.stream g.idx * (L : ℚ)⌋ < L := by
              rw [Int.floor_lt]
              rw [hL] at hprodlt
              exact hprodlt
            have hx2 : ((⌊g.stream g.idx * (L : ℚ)⌋ : ℤ) : ℚ) < (L : ℚ) := by
              exact_mod_cast hx
            linarith
          · obtain ⟨i, hi⟩ := hdir rfl
            exact ⟨i, hi⟩
        · obtain ⟨ha, hb, hc, ⟨i, hi⟩⟩ := ih sf g2 (by
            intro m
            show 0 ≤ g2.stream m ∧ g2.stream m < 1
            rw [hs1]
            exact hv m) _ h2 e he'
          refine ⟨ha, hb, hc, ⟨i, ?_⟩⟩
          rw [hi, hs1]

theorem clamp_if_eq (v : ℚ) :
    (if (if v < 0 then 0 else v) > 1 then 1 else if v < 0 then 0 else v) =
      max 0 (min v 1) := by
  rcases lt_or_le v 0 with h | h
  · rw [if_pos h]
    rw [if_neg (by norm_num : ¬((0 : ℚ) > 1))]
    rw [min_eq_left (by linarith : v ≤ 1), max_eq_left (le_of_lt h)]
  · rw [if_neg (not_lt.mpr h)]
    rcases lt_or_le 1 v with h1 | h1
    · rw [if_pos h1, min_eq_right (le_of_lt h1), max_eq_right (by norm_num : (0:ℚ) ≤ 1)]
    · rw [if_neg (not_lt.mpr h1), min_eq_left h1, max_eq_right h]

theorem floor_clamp_bounds (n : ℕ) (v : ℚ) :
    0 ≤ ⌊(n : ℚ) * max 0 (min v 1)⌋ ∧ ⌊(n : ℚ) * max 0 (min v 1)⌋ ≤ (n : ℤ) := by
  have hc0 : (0 : ℚ) ≤ max 0 (min v 1) := le_max_left _ _
  have hc1 : max 0 (min v 1) ≤ 1 := max_le (by norm_num) (min_le_right _ _)
  have hn0 : (0 : ℚ) ≤ (n : ℚ) := by positivity
  have h0 : (0 : ℚ) ≤ (n : ℚ) * max 0 (min v 1) := mul_nonneg hn0 hc0
  constructor
  · exact Int.floor_nonneg.mpr h0
  · have hle : (n : ℚ) * max 0 (min v 1) ≤ (n : ℚ) := by
      calc (n : ℚ) * max 0 (min v 1) ≤ (n : ℚ) * 1 :=
            mul_le_mul_of_nonneg_left hc1 hn0
        _ = (n : ℚ) := mul_one _
    calc ⌊(n : ℚ) * max 0 (min v 1)⌋ ≤ ⌊(n : ℚ)⌋ := Int.floor_le_floor hle
      _ = (n : ℤ) := Int.floor_natCast n

theorem set_tdr_spec {T : Trig} {v : ℚ} {fuel sf : ℕ} {s : RDKState} {g : RNG}
    {r : RDKState × RNG} (h : set_target_dot_ratio T v fuel sf s g = some r) :
    r.1.dots.length = s.dots.length ∧
    (targetSum r.1.dots : ℤ) = ⌊(s.dots.length : ℚ) * max 0 (min v 1)⌋ := by
  rw [set_target_dot_ratio] at h
  rw [clamp_if_eq] at h
  obtain ⟨hf0, hfn⟩ := floor_clamp_bounds s.dots.length v
  rw [pyInt_of_nonneg (mul_nonneg (by positivity)
    (le_max_left _ _ : (0:ℚ) ≤ max 0 (min v 1)))] at h
  exact setterLoop_spec fuel s g r hf0 (le_trans hfn (by norm_num)) h

theorem findSome?_if_eq_find?_map {α β : Type} (f : α → β) (q : β → Bool) :
    ∀ l : List α,
      l.findSome? (fun p => if q (f p) then some (f p) else none) = (l.map f).find? q := by
  intro l
  induction l with
  | nil => rfl
  | cons a l ih =>
    rw [List.findSome?_cons, List.map_cons, List.find?_cons]
    by_cases hq : q (f a)
    · rw [if_pos hq]
      simp [hq]
    · rw [if_neg hq]
      simp only [hq, cond_false]
      exact ih

set_option maxRecDepth 4000 in
theorem pyRangeF_length : ∀ step : ℕ, step < 361 → 1 ≤ step →
    (pyRangeF 360 step 360 0).length = (360 + step - 1) / step := by decide

theorem hlsV_bounds {m1 m2 : ℚ} (hue : ℚ) (h0 : 0 ≤ m1) (h1 : m1 ≤ m2) (h2 : m2 ≤ 1) :
    0 ≤ hlsV m1 m2 hue ∧ hlsV m1 m2 hue ≤ 1 := by
  rw [hlsV]
  have hf0 : 0 ≤ Int.fract hue := Int.fract_nonneg hue
  have hf1 : Int.fract hue < 1 := Int.fract_lt_one hue
  split
  next hc =>
    constructor
    · nlinarith
    · nlinarith
  next hc =>
    split
    next => exact ⟨by linarith, h2⟩
    next =>
      split
      next hc3 =>
        constructor
        · nlinarith
        · nlinarith
      next => exact ⟨h0, by linarith⟩

theorem hls_to_rgb_bounds {h l s : ℚ} (hl0 : 0 ≤ l) (hl1 : l ≤ 1) (hs0 : 0 ≤ s)
    (hs1 : s ≤ 1) :
    (0 ≤ (hls_to_rgb h l s).1 ∧ (hls_to_rgb h l s).1 ≤ 1) ∧
    (0 ≤ (hls_to_rgb h l s).2.1 ∧ (hls_to_rgb h l s).2.1 ≤ 1) ∧
    (0 ≤ (hls_to_rgb h l s).2.2 ∧ (hls_to_rgb h l s).2.2 ≤ 1) := by
  rw [hls_to_rgb]
  split
  next => exact ⟨⟨hl0, hl1⟩, ⟨hl0, hl1⟩, ⟨hl0, hl1⟩⟩
  next =>
    by_cases hhalf : l ≤ 1 / 2
    · rw [if_pos hhalf]
      have hm1 : (0 : ℚ) ≤ 2 * l - l * (1 + s) := by nlinarith
      have hm12 : 2 * l - l * (1 + s) ≤ l * (1 + s) := by nlinarith
      have hm2 : l * (1 + s) ≤ 1 := by nlinarith
      exact ⟨hlsV_bounds _ hm1 hm12 hm2, hlsV_bounds _ hm1 hm12 hm2,
        hlsV_bounds _ hm1 hm12 hm2⟩
    · rw [if_neg hhalf]
      have hm1 : (0 : ℚ) ≤ 2 * l - (l + s - l * s) := by nlinarith
      have hm12 : 2 * l - (l + s - l * s) ≤ l + s - l * s := by nlinarith
      have hm2 : l + s - l * s ≤ 1 := by nlinarith
      exact ⟨hlsV_bounds _ hm1 hm12 hm2, hlsV_bounds _ hm1 hm12 hm2,
        hlsV_bounds _ hm1 hm12 hm2⟩

theorem pyInt_byte_bounds {x : ℚ} (h0 : 0 ≤ x) (h1 : x ≤ 1) :
    0 ≤ pyInt (x * 255) ∧ pyInt (x * 255) ≤ 255 := by
  have hx0 : (0 : ℚ) ≤ x * 255 := by nlinarith
  rw [pyInt_of_nonneg hx0]
  constructor
  · exact Int.floor_nonneg.mpr hx0
  · calc ⌊x * 255⌋ ≤ ⌊(255 : ℚ)⌋ := Int.floor_le_floor (by nlinarith)
      _ = 255 := by norm_num

theorem colourStep_spec {i : ℕ} {g : RNG} (hv : RNG.valid g) :
    (colourStep i g).1.length = 3 ∧
    (∀ x ∈ (colourStep i g).1, 0 ≤ x ∧ x ≤ 255) ∧
    (colourStep i g).2.stream = g.stream := by
  obtain ⟨h10, h11⟩ := hv g.idx
  obtain ⟨h20, h21⟩ := hv (g.idx + 1)
  rw [colourStep]
  dsimp only [RNG.next]
  have hl0 : (0 : ℚ) ≤ (50 + g.stream g.idx * 10) / 100 := by nlinarith
  have hl1 : (50 + g.stream g.idx * 10) / 100 ≤ 1 := by nlinarith
  have hs0 : (0 : ℚ) ≤ (90 + g.stream (g.idx + 1) * 10) / 100 := by nlinarith
  have hs1 : (90 + g.stream (g.idx + 1) * 10) / 100 ≤ 1 := by nlinarith
  obtain ⟨⟨a0, a1⟩, ⟨b0, b1⟩, ⟨c0, c1⟩⟩ :=
    @hls_to_rgb_bounds ((i : ℚ) / 360) _ _ hl0 hl1 hs0 hs1
  refine ⟨rfl, ?_, rfl⟩
  intro x hx
  simp only [List.mem_cons, List.not_mem_nil, or_false] at hx
  rcases hx with rfl | rfl | rfl
  · exact pyInt_byte_bounds a0 a1
  · exact pyInt_byte_bounds b0 b1
  · exact pyInt_byte_bounds c0 c1

theorem colourList_spec :
    ∀ (l : List ℕ) (g : RNG), RNG.valid g →
      (colourList l g).1.length = l.length ∧
      (∀ c ∈ (colourList l g).1, c.length = 3 ∧ ∀ x ∈ c, 0 ≤ x ∧ x ≤ 255) := by
  intro l
  induction l with
  | nil => intro g hv; exact ⟨rfl, by simp [colourList]⟩
  | cons i rest ih =>
    intro g hv
    obtain ⟨hlen, hmem, hstream⟩ := colourStep_spec hv
    have hv2 : RNG.valid (colourStep i g).2 := by
      intro m
      rw [hstream]
      exact hv m
    obtain ⟨ih1, ih2⟩ := ih _ hv2
    rw [colourList]
    refine ⟨?_, ?_⟩
    · show ((colourStep i g).1 :: (colourList rest (colourStep i g).2).1).length
        = rest.length + 1
      rw [List.length_cons, ih1]
    · intro c hc
      rcases List.mem_cons.mp hc with rfl | hc'
      · exact ⟨hlen, hmem⟩
      · exact ih2 _ hc'

theorem rng0_valid : RNG.valid rng0 :=
  fun _ => ⟨by norm_num [rng0], by norm_num [rng0]⟩

theorem rng0_friendly : SampleFriendly rng0.stream 10 := by
  intro i
  show hypotLt ((pyInt (10 - (1 : ℚ) / 2 * 2 * 10) : ℤ) : ℚ)
    ((pyInt (10 - (1 : ℚ) / 2 * 2 * 10) : ℤ) : ℚ) 10 = true
  with_unfolding_all rfl

/-! ### The claims -/

/-- C2: a `MovingPosition` created with the default north-up-clockwise
convention, start `(x0, y0)`, direction `d` degrees and speed `sp` pixels per
second has, at clock time `t` milliseconds, position
`(x0 + t * (sp/1000) * cos((450 - d) * π/180),
  y0 + t * (sp/1000) * sin((450 - d) * π/180))`:
the position is a linear function of the wall-clock time, not of a frame
count. -/
theorem claim2_position_linear_in_time (T : Trig) (x0 y0 d sp lf ea : ℚ)
    (tgt : Bool) (t : ℚ) :
    ({ MovingPosition.create T (x0, y0) d sp lf ea true tgt with
        clockTime := t } : MovingPosition).position =
      (x0 + t * (sp / 1000) * T.cos ((450 - d) * T.pi / 180),
       y0 + t * (sp / 1000) * T.sin ((450 - d) * T.pi / 180)) := by
  show (x0 + t * (sp / 1000 * T.cos ((450 - d) * T.pi / 180)),
        y0 + t * (sp / 1000 * T.sin ((450 - d) * T.pi / 180))) =
       (x0 + t * (sp / 1000) * T.cos ((450 - d) * T.pi / 180),
        y0 + t * (sp / 1000) * T.sin ((450 - d) * T.pi / 180))
  rw [Prod.mk.injEq]
  constructor <;> ring

/-- C9: the movement vector of a `MovingPosition` does not depend on the
`north_up_clockwise` constructor argument — the flag is stored as a
one-element tuple, which is truthy even when the flag is `False`, so both
values give the north-up-clockwise formula `450 - direction`; and the
`north_up_clockwise` property returns that tuple rather than the boolean. -/
theorem claim9_north_up_flag_ignored (T : Trig) (pos : ℚ × ℚ) (d sp lf ea : ℚ)
    (tgt b : Bool) :
    (MovingPosition.create T pos d sp lf ea true tgt).movement_vector =
      (MovingPosition.create T pos d sp lf ea false tgt).movement_vector ∧
    (MovingPosition.create T pos d sp lf ea b tgt).north_up_clockwise = [b] :=
  ⟨rfl, rfl⟩

/-- C7: the codec-fallback conversions never raise: `byte2unicode` (and its
alias `str2unicode`) always returns a unicode string — unicode input is
returned unmodified, byte input is decoded with the filesystem encoding when
`fse` (else the locale encoding), falling back to utf-8 with `replace` when
that decode raises `UnicodeDecodeError`; symmetrically `unicode2byte` returns
byte input unmodified and encodes unicode input with the same fallback
scheme. -/
theorem claim7_codec_fallback_total :
    (∀ (C : Codec) (s : PyStr) (fse : Bool),
      ∃ u, byte2unicode C s fse = Except.ok (PyStr.uni u)) ∧
    (∀ (C : Codec) (u : List ℕ) (fse : Bool),
      byte2unicode C (PyStr.uni u) fse = Except.ok (PyStr.uni u)) ∧
    (∀ (C : Codec) (s : PyStr) (fse : Bool),
      str2unicode C s fse = byte2unicode C s fse) ∧
    (∀ (C : Codec) (b : List ℕ),
      byte2unicode C (PyStr.bytes b) true =
        Except.ok (PyStr.uni (match C.decodeFS b with
          | Except.ok u => u
          | Except.error _ => C.decodeUtf8Replace b))) ∧
    (∀ (C : Codec) (b : List ℕ),
      byte2unicode C (PyStr.bytes b) false =
        Except.ok (PyStr.uni (match C.decodeLocale b with
          | Except.ok u => u
          | Except.error _ => C.decodeUtf8Replace b))) ∧
    (∀ (C : Codec) (s : PyStr) (fse : Bool),
      ∃ bs, unicode2byte C s fse = Except.ok (PyStr.bytes bs)) ∧
    (∀ (C : Codec) (b : List ℕ) (fse : Bool),
      unicode2byte C (PyStr.bytes b) fse = Except.ok (PyStr.bytes b)) ∧
    (∀ (C : Codec) (u : List ℕ),
      unicode2byte C (PyStr.uni u) true =
        Except.ok (PyStr.bytes (match C.encodeFS u with
          | Except.ok bs => bs
          | Except.error _ => C.encodeUtf8Replace u))) ∧
    (∀ (C : Codec) (u : List ℕ),
      unicode2byte C (PyStr.uni u) false =
        Except.ok (PyStr.bytes (match C.encodeLocale u with
          | Except.ok bs => bs
          | Except.error _ => C.encodeUtf8Replace u))) ∧
    (∀ (C : Codec) (s : PyStr) (fse : Bool),
      unicode2str C s fse = unicode2byte C s fse) := by
  refine ⟨?_, ?_, ?_, ?_, ?_, ?_, ?_, ?_, ?_, ?_⟩
  · intro C s fse
    cases s with
    | uni u => exact ⟨u, rfl⟩
    | bytes b =>
      cases fse
      · rcases h : C.decodeLocale b with e | u
        · exact ⟨C.decodeUtf8Replace b, by simp [byte2unicode, h]⟩
        · exact ⟨u, by simp [byte2unicode, h]⟩
      · rcases h : C.decodeFS b with e | u
        · exact ⟨C.decodeUtf8Replace b, by simp [byte2unicode, h]⟩
        · exact ⟨u, by simp [byte2unicode, h]⟩
  · intro C u fse
    rfl
  · intro C s fse
    rfl
  · intro C b
    rcases h : C.decodeFS b with e | u <;> simp [byte2unicode, h]
  · intro C b
    rcases h : C.decodeLocale b with e | u <;> simp [byte2unicode, h]
  · intro C s fse
    cases s with
    | bytes b => exact ⟨b, rfl⟩
    | uni u =>
      cases fse
      · rcases h : C.encodeLocale u with e | bs
        · exact ⟨C.encodeUtf8Replace u, by simp [unicode2byte, h]⟩
        · exact ⟨bs, by simp [unicode2byte, h]⟩
      · rcases h : C.encodeFS u with e | bs
        · exact ⟨C.encodeUtf8Replace u, by simp [unicode2byte, h]⟩
        · exact ⟨bs, by simp [unicode2byte, h]⟩
  · intro C b fse
    rfl
  · intro C u
    rcases h : C.encodeFS u with e | bs <;> simp [unicode2byte, h]
  · intro C u
    rcases h : C.encodeLocale u with e | bs <;> simp [unicode2byte, h]
  · intro C s fse
    rfl

/-- C8: `which(programme)` returns a path only when it is an executable file:
with a directory component, it returns `programme` exactly when `programme`
itself is an executable file (no `PATH` search); a bare name is joined onto
each `PATH` entry in order (entries stripped of double quotes) and the first
executable join is returned, else `None`. -/
theorem claim8_which_spec :
    (∀ (o : OS) (prog p : List Char), which o prog = some p → is_exe o p = true) ∧
    (∀ (o : OS) (prog : List Char), ¬(pySplitHead prog).isEmpty = true →
      which o prog = (if is_exe o prog = true then some prog else none)) ∧
    (∀ (o : OS) (prog : List Char), (pySplitHead prog).isEmpty = true →
      which o prog =
        ((o.path_env.splitOn ':').map
          (fun en => pyJoin (pyStripQuotes en) prog)).find? (is_exe o)) := by
  have hdir : ∀ (o : OS) (prog : List Char), ¬(pySplitHead prog).isEmpty = true →
      which o prog = (if is_exe o prog = true then some prog else none) := by
    intro o prog hsp
    rw [which, if_neg hsp]
  have hbare : ∀ (o : OS) (prog : List Char), (pySplitHead prog).isEmpty = true →
      which o prog =
        ((o.path_env.splitOn ':').map
          (fun en => pyJoin (pyStripQuotes en) prog)).find? (is_exe o) := by
    intro o prog hsp
    rw [which, if_pos hsp]
    exact findSome?_if_eq_find?_map _ _ _
  refine ⟨?_, hdir, hbare⟩
  intro o prog p h
  by_cases hsp : (pySplitHead prog).isEmpty = true
  · rw [hbare o prog hsp] at h
    exact List.find?_some h
  · rw [hdir o prog hsp] at h
    split at h
    next hx =>
      cases h
      exact hx
    next => exact absurd h (by simp)

/-- C8 check: on a concrete file system whose `PATH` is `/usr:/bin` and where
exactly `/bin/sh` is an executable file, `which` finds `sh` at `/bin/sh`, and
the returned path is an executable file. -/
theorem claim8_check :
    which os0 ['s', 'h'] = some ['/', 'b', 'i', 'n', '/', 's', 'h'] ∧
    is_exe os0 ['/', 'b', 'i', 'n', '/', 's', 'h'] = true := by
  refine ⟨by decide, ?_⟩
  exact claim8_which_spec.1 os0 ['s', 'h'] ['/', 'b', 'i', 'n', '/', 's', 'h'] (by decide)

/-- C1: for a kinematogram with a non-empty dot list of `n` dots, assigning
`target_dot_ratio = v` (when the assignment completes) clamps `v` to `[0, 1]`
and ends with exactly `⌊n * clamp v⌋` dots having `is_target = True`, with the
total number of dots still `n`; reading `target_dot_ratio` afterwards returns
`⌊n * clamp v⌋ / n`. -/
theorem claim1_target_dot_ratio_setter (T : Trig) (v : ℚ) (fuel sf : ℕ)
    (s : RDKState) (g : RNG) (r : RDKState × RNG)
    (hne : 1 ≤ s.dots.length)
    (h : set_target_dot_ratio T v fuel sf s g = some r) :
    r.1.dots.length = s.dots.length ∧
    (n_target_dots r.1 : ℤ) = ⌊(s.dots.length : ℚ) * max 0 (min v 1)⌋ ∧
    target_dot_ratio r.1 =
      ((⌊(s.dots.length : ℚ) * max 0 (min v 1)⌋ : ℤ) : ℚ) / (s.dots.length : ℚ) := by
  obtain ⟨ha, hb⟩ := set_tdr_spec h
  refine ⟨ha, hb, ?_⟩
  rw [target_dot_ratio, ha]
  congr 1
  show ((n_target_dots r.1 : ℕ) : ℚ) = ((⌊(s.dots.length : ℚ) * max 0 (min v 1)⌋ : ℤ) : ℚ)
  exact_mod_cast hb

/-- C1 check: on a concrete state with 2 non-target dots, setting the ratio to
3/4 ends with `⌊2 * 3/4⌋ = 1` target dot among 2 dots, and the ratio reads
back as 1/2. -/
theorem claim1_check :
    (set_target_dot_ratio trig0 (3 / 4) 2 1 state0 rng0).map
      (fun r => (r.1.dots.length, n_target_dots r.1, target_dot_ratio r.1)) =
      some (2, 1, 1 / 2) := by
  have hs : (set_target_dot_ratio trig0 (3 / 4) 2 1 state0 rng0).isSome = true := by
    with_unfolding_all rfl
  cases hr : set_target_dot_ratio trig0 (3 / 4) 2 1 state0 rng0 with
  | none =>
    rw [hr] at hs
    exact absurd hs (by simp)
  | some r =>
    obtain ⟨ha, hb, hc⟩ := claim1_target_dot_ratio_setter trig0 (3 / 4) 2 1 state0
      rng0 r (by norm_num [state0]) hr
    show some (r.1.dots.length, n_target_dots r.1, target_dot_ratio r.1) =
      some (2, 1, 1 / 2)
    have hfl : ⌊(state0.dots.length : ℚ) * max 0 (min (3 / 4 : ℚ) 1)⌋ = 1 := by
      norm_num [state0]
    have h1 : r.1.dots.length = 2 := by rw [ha]; rfl
    have h2 : n_target_dots r.1 = 1 := by
      have := hb.trans (by rw [hfl])
      exact_mod_cast this
    have h3 : target_dot_ratio r.1 = 1 / 2 := by
      rw [hc, hfl]
      norm_num [state0]
    rw [h1, h2, h3]

/-- C6: the `while` loop of the `target_dot_ratio` setter terminates for every
non-empty dot list and every value `v`: each iteration removes one dot of the
opposite kind and appends one of the needed kind, moving the target count by
one toward `⌊n * clamp v⌋`, and a dot of the kind to be removed always exists
because `0 ≤ goal ≤ n`; so `n` iterations of fuel suffice (given that each
replacement dot is sampled successfully). -/
theorem claim6_setter_loop_terminates (T : Trig) (v : ℚ) (fuel sf : ℕ)
    (s : RDKState) (g : RNG) (hne : s.dots ≠ [])
    (hg : SampleFriendly g.stream s.area_radius) (hsf : 1 ≤ sf)
    (hfu : s.dots.length ≤ fuel) :
    (set_target_dot_ratio T v fuel sf s g).isSome = true := by
  rw [set_target_dot_ratio]
  rw [clamp_if_eq]
  rw [pyInt_of_nonneg (mul_nonneg (by positivity)
    (le_max_left _ _ : (0 : ℚ) ≤ max 0 (min v 1)))]
  obtain ⟨hf0, hfn⟩ := floor_clamp_bounds s.dots.length v
  apply setterLoop_of_friendly hsf fuel s g hg hf0 hfn
  have hts := targetSum_le_length s.dots
  omega

/-- C6 check: the setter loop terminates on a concrete 2-dot state with
`v = 1` within 2 iterations (sampling always succeeds for the constant
stream 1/2, which lands every new dot at the centre `(0, 0)`). -/
theorem claim6_check :
    (set_target_dot_ratio trig0 1 2 1 state0 rng0).isSome = true := by
  apply claim6_setter_loop_terminates trig0 1 2 1 state0 rng0
  · intro hx
    have hlen := congrArg List.length hx
    norm_num [state0] at hlen
  · exact rng0_friendly
  · norm_num
  · norm_num [state0]

/-- C4: `make_frame` preserves the dot population and the consistency ratio:
after a (successful) `make_frame`, the number of dots and the number of target
dots are unchanged, and pointwise each live in-range dot is kept while every
expired or out-of-range target dot is replaced by a new target dot with the
same direction, and an expired or out-of-range non-target dot by a non-target
dot with a fresh random direction (`frameRel`). -/
theorem claim4_make_frame_preserves (T : Trig) (s : RDKState) (sf : ℕ) (g : RNG)
    (r : RDKState × RNG) (h : make_frame T s sf g = some r) :
    r.1.dots.length = s.dots.length ∧
    n_target_dots r.1 = n_target_dots s ∧
    List.Forall₂ (frameRel s.area_radius g.stream) s.dots r.1.dots := by
  obtain ⟨h1, h2, h3, -⟩ := make_frame_spec h
  exact ⟨h1, h2, h3⟩

/-- C4 check: on a concrete state with one live non-target dot and one expired
target dot, `make_frame` keeps 2 dots and exactly 1 target dot. -/
theorem claim4_check :
    (make_frame trig0 state1 1 rng0).map
      (fun r => (r.1.dots.length, n_target_dots r.1)) = some (2, 1) := by
  have hs : (make_frame trig0 state1 1 rng0).isSome = true := by
    with_unfolding_all rfl
  cases hr : make_frame trig0 state1 1 rng0 with
  | none =>
    rw [hr] at hs
    exact absurd hs (by simp)
  | some r =>
    obtain ⟨h1, h2, -⟩ := claim4_make_frame_preserves trig0 state1 1 rng0 r hr
    show some (r.1.dots.length, n_target_dots r.1) = some (2, 1)
    have ha : r.1.dots.length = 2 := by rw [h1]; rfl
    have hb : n_target_dots r.1 = 1 := by rw [h2]; rfl
    rw [ha, hb]

/-- C3: dots stay within the arena radius until expiry: the rejection-sampling
loop of `_make_random_dot` only returns start positions with
`hypot(x, y) < area_radius`, and every dot in the list produced by a
(successful) `make_frame` — each either passed the
`not is_dead and not is_outside` check or was freshly replaced — has its
plotted position strictly inside the arena radius. -/
theorem claim3_dots_inside_arena :
    (∀ (R : ℚ) (f : ℕ) (g : RNG) (p : (ℚ × ℚ) × RNG),
      sampleInsidePos R f g = some p → hypotLt p.1.1 p.1.2 R = true) ∧
    (∀ (T : Trig) (s : RDKState) (sf : ℕ) (g : RNG) (r : RDKState × RNG),
      make_frame T s sf g = some r →
      ∀ d ∈ r.1.dots, hypotLt d.position.1 d.position.2 s.area_radius = true) := by
  constructor
  · intro R f g p h
    exact (sampleInsidePos_spec f g p h).2
  · intro T s sf g r h
    exact (make_frame_spec h).2.2.2

/-- C3 check: the position sampled by the rejection loop for radius 10 from
the constant stream 1/2 is `(0, 0)`, which lies strictly inside the arena. -/
theorem claim3_check : hypotLt (0 : ℚ) 0 10 = true := by
  have hs : (sampleInsidePos 10 1 rng0).isSome = true := by
    with_unfolding_all rfl
  cases hp : sampleInsidePos 10 1 rng0 with
  | none =>
    rw [hp] at hs
    exact absurd hs (by simp)
  | some p =>
    have h2 := claim3_dots_inside_arena.1 10 1 rng0 p hp
    have h3 : (sampleInsidePos 10 1 rng0).map (fun q => q.1) =
        some ((0 : ℚ), (0 : ℚ)) := by
      with_unfolding_all rfl
    rw [hp] at h3
    have h4 : p.1 = ((0 : ℚ), (0 : ℚ)) := Option.some.inj h3
    rw [h4] at h2
    exact h2

/-- C5: `reset(n_dots, ...)` rebuilds the population with exactly `n_dots`
dots; each dot of the construction step gets an independent random direction
and an `extra_age = int(random.random() * dot_lifetime)`, which for an integer
`dot_lifetime = L ≥ 1` lies in `[0, L - 1]`; a dot is dead exactly when its
clock time plus `extra_age` reaches its lifetime, so every freshly created dot
is alive at clock time 0. -/
theorem claim5_reset_population :
    (∀ (T : Trig) (s : RDKState) (L : ℤ), s.dot_lifetime = (L : ℚ) → 1 ≤ L →
      ∀ (n sf : ℕ) (g : RNG), RNG.valid g →
      ∀ (r : List MovingPosition × RNG), mkDots T s n sf g = some r →
        r.1.length = n ∧
        ∀ d ∈ r.1, 0 ≤ d.extra_age ∧ d.extra_age ≤ (L : ℚ) - 1 ∧
          d.is_dead = false ∧ (∃ i, d.direction = g.stream i * 360)) ∧
    (∀ (m : MovingPosition) (t : ℚ),
      (({ m with clockTime := t } : MovingPosition).is_dead = true ↔
        m.lifetime ≤ t + m.extra_age)) ∧
    (∀ (T : Trig) (n : ℕ) (td ratio : ℚ) (fuel sf : ℕ) (s : RDKState) (g : RNG)
      (r : RDKState × RNG), reset T n td ratio fuel sf s g = some r →
        r.1.dots.length = n) := by
  refine ⟨?_, ?_, ?_⟩
  · intro T s L hL hL1 n sf g hv r h
    exact ⟨(mkDots_length n sf g r h).1, mkDots_spec hL hL1 n sf g hv r h⟩
  · intro m t
    show decide (m.lifetime ≤ t + m.extra_age) = true ↔ m.lifetime ≤ t + m.extra_age
    exact decide_eq_true_iff
  · intro T n td ratio fuel sf s g r h
    rw [reset] at h
    rcases h1 : mkDots T { s with target_direction := td } n sf g with _ | ⟨ds, g1⟩
    · rw [h1] at h
      exact absurd h (by simp)
    · rw [h1] at h
      obtain ⟨ha, -⟩ := set_tdr_spec h
      rw [ha]
      exact (mkDots_length n sf g (ds, g1) h1).1

/-- C5 check: a concrete `reset` with 2 dots, integer lifetime 400 and ratio
1/2 succeeds and leaves exactly 2 dots. -/
theorem claim5_check :
    (reset trig0 2 90 (1 / 2) 2 1 state0 rng0).map (fun r => r.1.dots.length) =
      some 2 := by
  have hs : (reset trig0 2 90 (1 / 2) 2 1 state0 rng0).isSome = true := by
    with_unfolding_all rfl
  cases hr : reset trig0 2 90 (1 / 2) 2 1 state0 rng0 with
  | none =>
    rw [hr] at hs
    exact absurd hs (by simp)
  | some r =>
    have h := claim5_reset_population.2.2 trig0 2 90 (1 / 2) 2 1 state0 rng0 r hr
    show some r.1.dots.length = some 2
    rw [h]

/-- C10: for `1 ≤ amount ≤ 360`, `create_colours(amount)` returns a list whose
every element is a list of three integers in `[0, 255]` and whose length is
the number of multiples of `360 // amount` below 360, i.e.
`⌈360 / (360 // amount)⌉` — which can strictly exceed `amount` (e.g.
`amount = 7` yields 8 colours); for `amount > 360` the step `360 // amount` is
0 and the call raises an error instead of returning. -/
theorem claim10_create_colours :
    (∀ (amount : ℕ) (g : RNG), 1 ≤ amount → amount ≤ 360 → RNG.valid g →
      ∃ r, create_colours amount g = Except.ok r ∧
        r.1.length = (360 + 360 / amount - 1) / (360 / amount) ∧
        ∀ c ∈ r.1, c.length = 3 ∧ ∀ x ∈ c, 0 ≤ x ∧ x ≤ 255) ∧
    (∀ (amount : ℕ) (g : RNG), 360 < amount →
      create_colours amount g = Except.error PyError.valueError) := by
  constructor
  · intro amount g h1 h2 hv
    rw [create_colours]
    rw [if_neg (by omega : ¬amount = 0)]
    have hstep1 : 1 ≤ 360 / amount := (Nat.one_le_div_iff (by omega)).mpr h2
    have hstep2 : 360 / amount < 361 := by
      have := Nat.div_le_self 360 amount
      omega
    rw [if_neg (by omega : ¬360 / amount = 0)]
    obtain ⟨hl, hm⟩ := colourList_spec (pyRangeF 360 (360 / amount) 360 0) g hv
    refine ⟨_, rfl, ?_, hm⟩
    rw [hl]
    exact pyRangeF_length (360 / amount) hstep2 hstep1
  · intro amount g h
    rw [create_colours]
    rw [if_neg (by omega : ¬amount = 0)]
    rw [if_pos (Nat.div_eq_of_lt h)]

/-- C10 check: `create_colours(7)` succeeds and yields
`⌈360 / (360 // 7)⌉ = ⌈360 / 51⌉ = 8` colours — strictly more than the
requested 7. -/
theorem claim10_check :
    (match create_colours 7 rng0 with
      | Except.ok r => some r.1.length
      | Except.error _ => none) = some 8 := by
  obtain ⟨r, hok, hlen, -⟩ := claim10_create_colours.1 7 rng0 (by norm_num)
    (by norm_num) rng0_valid
  rw [hok]
  show some r.1.length = some 8
  rw [hlen]

end Expy
